import Mathlib

/-!
# Verification of the `guard` semaphore library

A shallow embedding of `src/sem.rs` (counting semaphore `SemVar<T>` with its
RAII guard `SemGuard`) and `src/mutex.rs` (a `Mutex<T>` built on a capacity-1
semaphore), together with theorems settling the specification claims.

Modelling conventions:
* The `AtomicU32` field `count` and the `u32` field `capacity` are modelled as
  `Nat` together with explicit reduction `% u32Mod` (`u32Mod = 2^32`) at the
  points where the Rust `u32` arithmetic can wrap (`fetch_sub(1)` wraps at 0;
  the `value + 1` argument of `compare_exchange` wraps at `u32::MAX`).
* `SemVar::access` (src/sem.rs lines 47-76) is a blocking loop; it is embedded
  as a small-step automaton `accessStep` over program counters `AccessPC`.
  Each step consumes the current contents `c` of the shared `count` word, so an
  adversarial environment may change `c` arbitrarily between steps.
  `AccessRes.acquired c'` models `return SemGuard { inner: self }` with the
  count word now holding `c'`; `AccessRes.block` models the calling thread
  going to sleep inside `wait(&self.count, value)`.
* `println!` calls are diagnostic output and are not modelled.
-/

namespace Guard

/-- The modulus of Rust `u32` arithmetic: `2 ^ 32`. -/
def u32Mod : Nat := 4294967296

/-- Rust `std::sync::atomic::Ordering` values. -/
inductive MemOrdering where
  | relaxed
  | acquire
  | release
  | acqRel
  | seqCst
deriving DecidableEq, Repr

/-- The ordering of the initial `self.count.load` in `access` (src/sem.rs line 48). -/
def accessLoadOrdering : MemOrdering := MemOrdering.seqCst

/-- The success ordering of the `compare_exchange` in `access` (src/sem.rs line 55). -/
def casSuccessOrdering : MemOrdering := MemOrdering.seqCst

/-- The failure ordering of the `compare_exchange` in `access` (src/sem.rs line 56). -/
def casFailureOrdering : MemOrdering := MemOrdering.seqCst

/-- The ordering of the reload `self.count.load` after `wait` (src/sem.rs line 73). -/
def accessReloadOrdering : MemOrdering := MemOrdering.seqCst

/-- The ordering of `self.inner.count.fetch_sub(1, ...)` in `SemGuard`'s `Drop`
implementation (src/sem.rs line 20). -/
def dropFetchSubOrdering : MemOrdering := MemOrdering.seqCst

/-- The struct `SemVar<T>` (src/sem.rs lines 7-12): a fixed capacity, the
atomic count of active users, and the guarded value.  Both `capacity : u32`
and the contents of `count : AtomicU32` are `Nat`s below `u32Mod`. -/
structure SemVar (T : Type) where
  capacity : Nat
  count : Nat
  value : T
deriving DecidableEq, Repr

/-- `SemVar::new` (src/sem.rs lines 39-45): stores the capacity and the value
unchanged and unvalidated, and initialises `count` to 0. -/
def SemVar.new {T : Type} (capacity : Nat) (value : T) : SemVar T :=
  { capacity := capacity, count := 0, value := value }

/-- `<SemGuard as Deref>::deref` (src/sem.rs lines 30-36): a guard dereferences
to the guarded value of the semaphore it borrows. -/
def SemGuard.deref {T : Type} (inner : SemVar T) : T :=
  inner.value

/-- Program counters of the `access` loop (src/sem.rs lines 47-76).
`start` is just before the initial load (line 48); `claimCheck v` is at
`if value < self.capacity` (line 51) with local `value = v`; `waitCheck v` is
at `if value == self.capacity` (line 70); `waiting v` is blocked inside
`wait(&self.count, v)` (line 72); `reload` is at the load on line 73. -/
inductive AccessPC where
  | start
  | claimCheck (v : Nat)
  | waitCheck (v : Nat)
  | waiting (v : Nat)
  | reload
deriving DecidableEq, Repr

/-- Result of one atomic step of `access`: `run pc c` continues executing at
`pc` with the count word holding `c`; `block pc c` means the thread went to
sleep (only `wait` can do this); `acquired c` means the `compare_exchange`
succeeded and `access` returned `SemGuard { inner: self }`, the count word now
holding `c`. -/
inductive AccessRes where
  | run (pc : AccessPC) (c : Nat)
  | block (pc : AccessPC) (c : Nat)
  | acquired (c : Nat)
deriving DecidableEq, Repr

/-- The new contents of the `count` word after an `AccessRes`. -/
def AccessRes.newCount : AccessRes → Nat
  | AccessRes.run _ c => c
  | AccessRes.block _ c => c
  | AccessRes.acquired c => c

/-- One atomic step of `SemVar::access` (src/sem.rs lines 47-76), given the
capacity `cap`, the program counter `pc`, and the current contents `c` of the
`count` word.

* `start`: `let mut value = self.count.load(..)` — the local value becomes `c`.
* `claimCheck v`: `if value < self.capacity` and, when taken, the
  `compare_exchange(value, value + 1, ..)`: if `c = v` the CAS succeeds,
  stores `(v + 1) % u32Mod` (the `u32` sum) and `access` returns a guard;
  otherwise `Err(e)` sets `value = e` (the actual contents `c`) and execution
  falls through to the `if value == self.capacity` check.  When `v < cap`
  fails, execution falls through with `value` unchanged.
* `waitCheck v`: `if value == self.capacity` and, when taken,
  `wait(&self.count, value)`: the futex blocks the thread only if the word
  still holds `v`, otherwise it returns at once and the reload runs.  When
  the check fails the loop continues at the top.
* `waiting v`: the blocked thread is woken (genuinely or spuriously) and
  `wait` returns; the reload runs next.
* `reload`: `value = self.count.load(..)` then the loop continues at the top. -/
def accessStep (cap : Nat) (pc : AccessPC) (c : Nat) : AccessRes :=
  match pc with
  | AccessPC.start => AccessRes.run (AccessPC.claimCheck c) c
  | AccessPC.claimCheck v =>
      if v < cap then
        if c = v then
          AccessRes.acquired ((v + 1) % u32Mod)
        else
          AccessRes.run (AccessPC.waitCheck c) c
      else
        AccessRes.run (AccessPC.waitCheck v) c
  | AccessPC.waitCheck v =>
      if v = cap then
        if c = v then
          AccessRes.block (AccessPC.waiting v) c
        else
          AccessRes.run AccessPC.reload c
      else
        AccessRes.run (AccessPC.claimCheck v) c
  | AccessPC.waiting _ => AccessRes.run AccessPC.reload c
  | AccessPC.reload => AccessRes.run (AccessPC.claimCheck c) c

/-- The contents of the `count` word after `fetch_sub(1, ..)` in
`<SemGuard as Drop>::drop` (src/sem.rs line 20): `u32` subtraction wraps, so
the stored value is `(c + (u32Mod - 1)) % u32Mod`. -/
def dropCount (c : Nat) : Nat :=
  (c + (u32Mod - 1)) % u32Mod

/-- The atomic actions `<SemGuard as Drop>::drop` can perform on the shared
count word. -/
inductive AtomicAction where
  | fetchSub (ord : MemOrdering)
  | wakeOne
deriving DecidableEq, Repr

/-- The sequence of atomic actions performed by `<SemGuard as Drop>::drop`
(src/sem.rs lines 18-28), in program order: the decrement `fetch_sub(1, ..)`
on line 20 and then `wake_one(&self.inner.count)` on line 26. -/
def dropActions : List AtomicAction :=
  [AtomicAction.fetchSub dropFetchSubOrdering, AtomicAction.wakeOne]

/-- Effect of one `SemGuard` drop on the semaphore it borrows: only the
`count` field changes, by the wrapping decrement. -/
def SemGuard.dropEffect {T : Type} (s : SemVar T) : SemVar T :=
  { s with count := dropCount s.count }

/-- Full-state version of one `access` step: the semaphore with its `count`
field updated, paired with the step result. -/
def SemVar.accessStepFull {T : Type} (s : SemVar T) (pc : AccessPC) :
    AccessRes × SemVar T :=
  (accessStep s.capacity pc s.count,
   { s with count := (accessStep s.capacity pc s.count).newCount })

/-- Lifecycle of one `SemGuard` value under Rust's ownership discipline: it is
`held` from the moment `access` returns it and `released` once it is dropped.
`drop` runs exactly when a held guard is destroyed; a released guard no longer
exists, so the language never runs `drop` on it again (`none`). -/
inductive GuardPhase where
  | held
  | released
deriving DecidableEq, Repr

/-- The only transition of a guard's lifecycle: destruction takes a `held`
guard to `released`; destruction of a `released` guard is impossible. -/
def guardDrop : GuardPhase → Option GuardPhase
  | GuardPhase.held => some GuardPhase.released
  | GuardPhase.released => none

/-- Global state of one semaphore: the contents of the `count` word and the
number of live (not yet dropped) guards. -/
structure SemState where
  count : Nat
  live : Nat
deriving DecidableEq, Repr

/-- Labels for the two state-changing operations of the semaphore. -/
inductive SemOp where
  | claim
  | drop
deriving DecidableEq, Repr

/-- The two state-changing transitions of a semaphore of capacity `cap`:

* `claim`: some thread's `access` performs a successful `compare_exchange`
  (its `accessStep` at `claimCheck v` returns `acquired c'`), creating one
  more live guard;
* `drop`: a live guard is destroyed, running `<SemGuard as Drop>::drop`,
  which stores the wrapping decrement `dropCount`. -/
inductive SemStep (cap : Nat) : SemState → SemOp → SemState → Prop where
  | claim (s : SemState) (v c' : Nat)
      (h : accessStep cap (AccessPC.claimCheck v) s.count = AccessRes.acquired c') :
      SemStep cap s SemOp.claim ⟨c', s.live + 1⟩
  | drop (s : SemState) (h : 0 < s.live) :
      SemStep cap s SemOp.drop ⟨dropCount s.count, s.live - 1⟩

/-- States reachable from the freshly constructed semaphore (`count = 0`, no
live guards) by any interleaving of claims and matched drops. -/
inductive Reachable (cap : Nat) : SemState → Prop where
  | init : Reachable cap ⟨0, 0⟩
  | step (s s' : SemState) (op : SemOp) (h1 : Reachable cap s)
      (h2 : SemStep cap s op s') : Reachable cap s'

/-- The interior-mutability cell (`std::cell`) wrapped by the mutex's
semaphore (src/mutex.rs line 6); its raw-pointer accessor `get` is modelled as
the projection `interior`. -/
structure Cell (T : Type) where
  interior : T
deriving DecidableEq, Repr

/-- `Mutex<T>` (src/mutex.rs lines 5-7): a semaphore over the cell. -/
structure Mutex (T : Type) where
  inner : SemVar (Cell T)
deriving DecidableEq, Repr

/-- `Mutex::new` (src/mutex.rs lines 17-21): builds a `SemVar` of capacity 1
wrapping the value inside the cell. -/
def Mutex.new {T : Type} (value : T) : Mutex T :=
  { inner := SemVar.new 1 (Cell.mk value) }

/-- One atomic step of `Mutex::lock` (src/mutex.rs lines 23-26): `lock`
delegates directly to `self.inner.access()`, so each of its steps is a step of
`access` on the wrapped semaphore. -/
def Mutex.lockStep {T : Type} (m : Mutex T) (pc : AccessPC) (c : Nat) : AccessRes :=
  accessStep m.inner.capacity pc c

/-- `<MutexGuard as Deref>::deref` (src/mutex.rs lines 31-36):
`&*self.0.deref().get()` — the wrapped semaphore guard's deref gives the cell,
and the cell's interior is returned. -/
def MutexGuard.deref {T : Type} (m : Mutex T) : T :=
  (SemGuard.deref m.inner).interior

/-- `<MutexGuard as DerefMut>::deref_mut` (src/mutex.rs lines 38-42): same
path as `deref`, through the cell's raw pointer. -/
def MutexGuard.derefMut {T : Type} (m : Mutex T) : T :=
  (SemGuard.deref m.inner).interior

/-- Running `access` from the initial load for at most two atomic steps (the
load, then whatever the loop does next) with no interference from other
threads: the count word is changed only by this thread. -/
def seqAccessTwo (cap c : Nat) : AccessRes :=
  match accessStep cap AccessPC.start c with
  | AccessRes.run pc c1 => accessStep cap pc c1
  | r => r

/-- One uncontended `access()`/guard-drop pair starting from count `c`:
`some c'` when the access acquires within its first two steps (initial load
followed by an immediately successful compare-exchange) and the drop then
stores `c'`; `none` when the first compare-exchange attempt did not succeed
(a retry or the blocking wait branch would run instead). -/
def seqPair (cap c : Nat) : Option Nat :=
  match seqAccessTwo cap c with
  | AccessRes.acquired c2 => some (dropCount c2)
  | _ => none

/-- `n` single-threaded `access()`/drop pairs starting from the freshly
constructed count 0, propagating `none` if any pair needed a retry or a wait. -/
def seqPairs (cap : Nat) : Nat → Option Nat
  | 0 => some 0
  | n + 1 => (seqPairs cap n).bind (seqPair cap)

/-- Inversion of a successful claim step: the CAS at `claimCheck v` returns
`acquired c'` exactly when the claiming branch was open (`v < cap`), the word
still held the loaded value (`c = v`), and the stored successor is the `u32`
sum `(v + 1) % u32Mod`. -/
theorem accessStep_acquired_inv (cap v c c' : Nat)
    (h : accessStep cap (AccessPC.claimCheck v) c = AccessRes.acquired c') :
    v < cap ∧ c = v ∧ c' = (v + 1) % u32Mod := by
  by_cases h1 : v < cap
  · by_cases h2 : c = v
    · refine ⟨h1, h2, ?_⟩
      simp only [accessStep, if_pos h1, if_pos h2, AccessRes.acquired.injEq] at h
      exact h.symm
    · simp only [accessStep, if_pos h1, if_neg h2] at h
      exact AccessRes.noConfusion h
  · simp only [accessStep, if_neg h1] at h
    exact AccessRes.noConfusion h

/-- The wrapping decrement is an exact decrement whenever the count is a
positive `u32` value. -/
theorem dropCount_eq_sub_one (c : Nat) (h1 : 1 ≤ c) (h2 : c < u32Mod) :
    dropCount c = c - 1 := by
  unfold dropCount u32Mod at *
  omega

/-- Core invariant of the transition system: in every reachable state the
count word holds exactly the number of live guards, and that number never
exceeds the capacity. -/
theorem reachable_inv (cap : Nat) (hcap : cap < u32Mod) :
    ∀ s, Reachable cap s → s.count = s.live ∧ s.count ≤ cap := by
  intro s h
  induction h with
  | init => exact ⟨rfl, Nat.zero_le _⟩
  | step t t' op h1 h2 ih =>
    obtain ⟨ih1, ih2⟩ := ih
    cases h2 with
    | claim v c' hacq =>
      obtain ⟨hv, hc, hc'⟩ := accessStep_acquired_inv cap v t.count c' hacq
      have hlt : v + 1 < u32Mod := by omega
      have hc1 : c' = v + 1 := by
        rw [hc', Nat.mod_eq_of_lt hlt]
      refine ⟨?_, ?_⟩
      · show c' = t.live + 1
        omega
      · show c' ≤ cap
        omega
    | drop hl =>
      have hd := dropCount_eq_sub_one t.count (by omega) (by omega)
      refine ⟨?_, ?_⟩
      · show dropCount t.count = t.live - 1
        omega
      · show dropCount t.count ≤ cap
        omega

/-- C8: `SemVar::new` performs no validation and never fails: for every
capacity (0 included) and every initial value it returns a semaphore whose
fields are exactly the given capacity, a count of 0, and the given value. -/
theorem semvar_new_unvalidated {T : Type} (capacity : Nat) (value : T) :
    (SemVar.new capacity value).capacity = capacity
    ∧ (SemVar.new capacity value).count = 0
    ∧ (SemVar.new capacity value).value = value
    ∧ SemVar.new 0 value = { capacity := 0, count := 0, value := value } :=
  ⟨rfl, rfl, rfl, rfl⟩

/-- C5 counterexample: the claim's orderings (relaxed initial load,
acquire-on-success / relaxed-on-failure compare-exchange, release decrement)
do not match the code, which passes `Ordering::SeqCst` at every one of these
call sites. -/
theorem orderings_not_as_claimed :
    ¬ (accessLoadOrdering = MemOrdering.relaxed
       ∧ casSuccessOrdering = MemOrdering.acquire
       ∧ casFailureOrdering = MemOrdering.relaxed
       ∧ dropFetchSubOrdering = MemOrdering.release) := by
  decide

/-- C5 amended: every atomic operation of the primitive — the initial load in
`access`, the compare-exchange (both success and failure orderings), the
reload after `wait`, and the `fetch_sub` decrement in the guard's `Drop` —
uses sequentially consistent ordering. -/
theorem orderings_all_seqcst :
    accessLoadOrdering = MemOrdering.seqCst
    ∧ casSuccessOrdering = MemOrdering.seqCst
    ∧ casFailureOrdering = MemOrdering.seqCst
    ∧ accessReloadOrdering = MemOrdering.seqCst
    ∧ dropFetchSubOrdering = MemOrdering.seqCst := by
  decide

/-- C1: for every capacity `cap` (a `u32`, so `cap < u32Mod`) and every state
reachable by any interleaving of successful claims inside `SemVar::access` and
drops of live guards, the count word satisfies `count ≤ cap` (it is a `Nat`,
so `0 ≤ count` holds inherently) and the number of simultaneously live guards
never exceeds `cap`. -/
theorem count_bounded (cap : Nat) (hcap : cap < u32Mod) (s : SemState)
    (h : Reachable cap s) : s.count ≤ cap ∧ s.live ≤ cap := by
  obtain ⟨h1, h2⟩ := reachable_inv cap hcap s h
  exact ⟨h2, by omega⟩

theorem count_bounded_witness :
    (1 : Nat) < u32Mod
    ∧ Reachable 1 ⟨1, 1⟩
    ∧ (⟨1, 1⟩ : SemState).count ≤ 1 ∧ (⟨1, 1⟩ : SemState).live ≤ 1 := by
  have hcap : (1 : Nat) < u32Mod := by decide
  have hacq : accessStep 1 (AccessPC.claimCheck 0) 0 = AccessRes.acquired 1 := by
    decide
  have hr : Reachable 1 ⟨1, 1⟩ :=
    Reachable.step ⟨0, 0⟩ ⟨1, 1⟩ SemOp.claim Reachable.init
      (SemStep.claim ⟨0, 0⟩ 0 1 hacq)
  have hb := count_bounded 1 hcap ⟨1, 1⟩ hr
  exact ⟨hcap, hr, hb.1, hb.2⟩

/-- C2: `accessStep` is exactly the loop the claim describes.  In order, the
conjuncts state: the initial load copies the count into the local value; when
the value is below the capacity, a successful compare-exchange (word still
holds the loaded value) stores the `u32` successor and returns a guard; a
failed compare-exchange continues the loop with the current count it returned;
when the claiming branch is closed the value is left unchanged; when the value
equals the capacity the wait call blocks exactly if the word still holds that
expected value, otherwise it returns at once; a value differing from the
capacity skips the wait; a woken (or spuriously returning) wait is followed by
the reload; the reload copies the count into the local value and retries; and
the wait call is the only step that can block. -/
theorem access_implements_spec_loop (cap : Nat) :
    (∀ c, accessStep cap AccessPC.start c = AccessRes.run (AccessPC.claimCheck c) c)
    ∧ (∀ v c, v < cap → c = v →
        accessStep cap (AccessPC.claimCheck v) c = AccessRes.acquired ((v + 1) % u32Mod))
    ∧ (∀ v c, v < cap → c ≠ v →
        accessStep cap (AccessPC.claimCheck v) c = AccessRes.run (AccessPC.waitCheck c) c)
    ∧ (∀ v c, ¬ v < cap →
        accessStep cap (AccessPC.claimCheck v) c = AccessRes.run (AccessPC.waitCheck v) c)
    ∧ (∀ c, c = cap →
        accessStep cap (AccessPC.waitCheck cap) c = AccessRes.block (AccessPC.waiting cap) c)
    ∧ (∀ c, c ≠ cap →
        accessStep cap (AccessPC.waitCheck cap) c = AccessRes.run AccessPC.reload c)
    ∧ (∀ v c, v ≠ cap →
        accessStep cap (AccessPC.waitCheck v) c = AccessRes.run (AccessPC.claimCheck v) c)
    ∧ (∀ v c, accessStep cap (AccessPC.waiting v) c = AccessRes.run AccessPC.reload c)
    ∧ (∀ c, accessStep cap AccessPC.reload c = AccessRes.run (AccessPC.claimCheck c) c)
    ∧ (∀ pc c pc' c', accessStep cap pc c = AccessRes.block pc' c' →
        pc = AccessPC.waitCheck cap ∧ c = cap ∧ pc' = AccessPC.waiting cap ∧ c' = c) := by
  refine ⟨fun c => rfl, ?_, ?_, ?_, ?_, ?_, ?_, fun v c => rfl, fun c => rfl, ?_⟩
  · intro v c hv hc
    subst hc
    simp [accessStep, hv]
  · intro v c hv hc
    simp [accessStep, hv, hc]
  · intro v c hv
    simp [accessStep, hv]
  · intro c hc
    subst hc
    simp [accessStep]
  · intro c hc
    simp [accessStep, hc]
  · intro v c hv
    simp [accessStep, hv]
  · intro pc c pc' c' h
    cases pc with
    | start => exact AccessRes.noConfusion h
    | claimCheck v =>
      by_cases h1 : v < cap
      · by_cases h2 : c = v
        · simp only [accessStep, if_pos h1, if_pos h2] at h
          exact AccessRes.noConfusion h
        · simp only [accessStep, if_pos h1, if_neg h2] at h
          exact AccessRes.noConfusion h
      · simp only [accessStep, if_neg h1] at h
        exact AccessRes.noConfusion h
    | waitCheck v =>
      by_cases h1 : v = cap
      · by_cases h2 : c = v
        · simp only [accessStep, if_pos h1, if_pos h2, AccessRes.block.injEq] at h
          subst h1
          exact ⟨rfl, h2, h.1.symm, h.2.symm⟩
        · simp only [accessStep, if_pos h1, if_neg h2] at h
          exact AccessRes.noConfusion h
      · simp only [accessStep, if_neg h1] at h
        exact AccessRes.noConfusion h
    | waiting v => exact AccessRes.noConfusion h
    | reload => exact AccessRes.noConfusion h

theorem access_implements_spec_loop_witness :
    accessStep 1 (AccessPC.claimCheck 0) 0 = AccessRes.acquired ((0 + 1) % u32Mod)
    ∧ accessStep 1 (AccessPC.waitCheck 1) 1 = AccessRes.block (AccessPC.waiting 1) 1 :=
  ⟨(access_implements_spec_loop 1).2.1 0 0 (by decide) rfl,
   (access_implements_spec_loop 1).2.2.2.2.1 1 rfl⟩

/-- C3: the conjuncts state, in order: a guard's destruction performs the
atomic decrement first and the wake-one signal on the count word second, in
program order; the wrapping `fetch_sub` is an exact decrement by one on every
positive `u32` count; in the labelled transition system any step that lowers
the count is a drop — the claim transition strictly raises it, so destruction
is the sole decrementing operation; and under Rust's ownership discipline
destruction runs exactly once per guard: it takes a held guard to released and
a released guard can never be dropped again. -/
theorem drop_decrements_then_wakes :
    dropActions = [AtomicAction.fetchSub MemOrdering.seqCst, AtomicAction.wakeOne]
    ∧ (∀ c, 1 ≤ c → c < u32Mod → dropCount c = c - 1)
    ∧ (∀ cap s op s', cap < u32Mod → SemStep cap s op s' → s'.count < s.count →
        op = SemOp.drop)
    ∧ guardDrop GuardPhase.held = some GuardPhase.released
    ∧ guardDrop GuardPhase.released = none := by
  refine ⟨rfl, dropCount_eq_sub_one, ?_, rfl, rfl⟩
  intro cap s op s' hcap hstep hdec
  cases hstep with
  | claim v c' hacq =>
    obtain ⟨hv, hc, hc'⟩ := accessStep_acquired_inv cap v s.count c' hacq
    have hdec' : c' < s.count := hdec
    have hlt : v + 1 < u32Mod := by omega
    have hc1 : c' = v + 1 := by
      rw [hc', Nat.mod_eq_of_lt hlt]
    omega
  | drop hl => rfl

theorem drop_decrements_then_wakes_witness :
    dropCount 5 = 4 ∧ SemOp.drop = SemOp.drop := by
  have h := drop_decrements_then_wakes
  have hstep : SemStep 1 ⟨1, 1⟩ SemOp.drop ⟨0, 0⟩ := SemStep.drop ⟨1, 1⟩ (by decide)
  refine ⟨h.2.1 5 (by decide) (by decide), ?_⟩
  exact h.2.2.1 1 ⟨1, 1⟩ SemOp.drop ⟨0, 0⟩ (by decide) hstep (by decide)

/-- C4: `Mutex::new` builds a capacity-1 `SemVar` with count 0 wrapping the
value inside the interior-mutability cell; each step of `lock` on such a mutex
is exactly the corresponding step of `SemVar::access` on a capacity-1
semaphore; and the mutex guard's `Deref` and `DerefMut` both reach the cell's
interior value through the wrapped semaphore guard. -/
theorem mutex_refines_capacity_one_semaphore {T : Type} (value : T)
    (pc : AccessPC) (c : Nat) :
    (Mutex.new value).inner.capacity = 1
    ∧ (Mutex.new value).inner.count = 0
    ∧ (Mutex.new value).inner.value = Cell.mk value
    ∧ Mutex.lockStep (Mutex.new value) pc c = accessStep 1 pc c
    ∧ MutexGuard.deref (Mutex.new value) = value
    ∧ MutexGuard.derefMut (Mutex.new value) = value :=
  ⟨rfl, rfl, rfl, rfl, rfl, rfl⟩

/-- C6: with capacity 0 no call to `access` can ever return a guard.  The
conjuncts state: no step of the capacity-0 automaton ever yields `acquired`
(the claiming branch `v < 0` is unreachable); every reachable state of the
capacity-0 semaphore still has count 0 and no live guards, so the reloaded
value is always 0; and from the initial load with count 0 the loop cycles
`start → claimCheck 0 → waitCheck 0 → waiting (blocked) → reload →
claimCheck 0 → ...`, reaching the blocking wait step on every iteration. -/
theorem capacity_zero_blocks_forever :
    (∀ pc c c', accessStep 0 pc c ≠ AccessRes.acquired c')
    ∧ (∀ s, Reachable 0 s → s.count = 0 ∧ s.live = 0)
    ∧ accessStep 0 AccessPC.start 0 = AccessRes.run (AccessPC.claimCheck 0) 0
    ∧ accessStep 0 (AccessPC.claimCheck 0) 0 = AccessRes.run (AccessPC.waitCheck 0) 0
    ∧ accessStep 0 (AccessPC.waitCheck 0) 0 = AccessRes.block (AccessPC.waiting 0) 0
    ∧ accessStep 0 (AccessPC.waiting 0) 0 = AccessRes.run AccessPC.reload 0
    ∧ accessStep 0 AccessPC.reload 0 = AccessRes.run (AccessPC.claimCheck 0) 0 := by
  refine ⟨?_, ?_, rfl, by decide, by decide, rfl, rfl⟩
  · intro pc c c' h
    cases pc with
    | start => exact AccessRes.noConfusion h
    | claimCheck v =>
      obtain ⟨hv, -, -⟩ := accessStep_acquired_inv 0 v c c' h
      exact absurd hv (Nat.not_lt_zero v)
    | waitCheck v =>
      by_cases h1 : v = 0
      · by_cases h2 : c = v
        · simp only [accessStep, if_pos h1, if_pos h2] at h
          exact AccessRes.noConfusion h
        · simp only [accessStep, if_pos h1, if_neg h2] at h
          exact AccessRes.noConfusion h
      · simp only [accessStep, if_neg h1] at h
        exact AccessRes.noConfusion h
    | waiting v => exact AccessRes.noConfusion h
    | reload => exact AccessRes.noConfusion h
  · intro s hs
    obtain ⟨h1, h2⟩ := reachable_inv 0 (by decide) s hs
    omega

theorem capacity_zero_blocks_forever_witness :
    accessStep 0 (AccessPC.claimCheck 0) 0 ≠ AccessRes.acquired 1
    ∧ (⟨0, 0⟩ : SemState).count = 0 :=
  ⟨capacity_zero_blocks_forever.1 (AccessPC.claimCheck 0) 0 1,
   (capacity_zero_blocks_forever.2.1 ⟨0, 0⟩ Reachable.init).1⟩

/-- C7: for every capacity at least 1, in a single-threaded execution starting
from count 0, every `access()`/drop pair completes on the fast path: each
access acquires within its first two atomic steps (the initial load followed
by an immediately successful compare-exchange, so the blocking wait branch is
never reached — `seqPair` would return `none` otherwise) and each drop returns
the count to its prior value 0, for any number of repetitions. -/
theorem sequential_fast_path (cap : Nat) (h : 1 ≤ cap) :
    (∀ n, seqPairs cap n = some 0)
    ∧ seqAccessTwo cap 0 = AccessRes.acquired 1 := by
  have h0 : 0 < cap := h
  have hacq : accessStep cap (AccessPC.claimCheck 0) 0 = AccessRes.acquired 1 := by
    have h1 : (0 + 1) % u32Mod = 1 := by decide
    simp [accessStep, h0, h1]
  have e1 : seqAccessTwo cap 0 = AccessRes.acquired 1 := by
    show accessStep cap (AccessPC.claimCheck 0) 0 = AccessRes.acquired 1
    exact hacq
  have hpair : seqPair cap 0 = some 0 := by
    unfold seqPair
    rw [e1]
    rfl
  refine ⟨?_, e1⟩
  intro n
  induction n with
  | zero => rfl
  | succ n ih => simp [seqPairs, ih, hpair]

theorem sequential_fast_path_witness :
    1 ≤ 1 ∧ seqPairs 1 3 = some 0 ∧ seqAccessTwo 1 0 = AccessRes.acquired 1 :=
  ⟨by decide, (sequential_fast_path 1 (by decide)).1 3,
   (sequential_fast_path 1 (by decide)).2⟩

/-- C9: neither an `access` step nor a guard drop changes the semaphore's
`capacity` or `value` fields: over the full-state embeddings, every step of
either operation leaves both fields untouched — the count word is the only
state that changes. -/
theorem access_drop_frame {T : Type} (s : SemVar T) (pc : AccessPC) :
    (s.accessStepFull pc).2.capacity = s.capacity
    ∧ (s.accessStepFull pc).2.value = s.value
    ∧ (SemGuard.dropEffect s).capacity = s.capacity
    ∧ (SemGuard.dropEffect s).value = s.value := by
  unfold SemVar.accessStepFull SemGuard.dropEffect
  exact ⟨rfl, rfl, rfl, rfl⟩

/-- C10: the successor `value + 1` handed to the compare-exchange never wraps
modulo `2 ^ 32`: it is computed only on the branch where the loaded value is
below the capacity, so for every `u32` capacity (`cap < u32Mod`, i.e. up to
`u32::MAX`) a successful compare-exchange stores the exact integer successor
of the loaded value. -/
theorem cas_successor_no_wrap (cap v c c' : Nat) (hv : v < cap)
    (hcap : cap < u32Mod)
    (h : accessStep cap (AccessPC.claimCheck v) c = AccessRes.acquired c') :
    c' = v + 1 := by
  obtain ⟨-, -, hc'⟩ := accessStep_acquired_inv cap v c c' h
  rw [hc', Nat.mod_eq_of_lt (by omega)]

theorem cas_successor_no_wrap_witness :
    (5 : Nat) < 10 ∧ (10 : Nat) < u32Mod
    ∧ accessStep 10 (AccessPC.claimCheck 5) 5 = AccessRes.acquired 6
    ∧ (6 : Nat) = 5 + 1 := by
  have hacq : accessStep 10 (AccessPC.claimCheck 5) 5 = AccessRes.acquired 6 := by
    decide
  exact ⟨by decide, by decide, hacq,
    cas_successor_no_wrap 10 5 5 6 (by decide) (by decide) hacq⟩

end Guard
